import Mathlib

/-!
Verification of `ci/filter_imports.py` from Kitura/KituraKit.

The program reads text line by line (via Python's `fileinput.input()`, which
keeps each line's terminator) and writes every line to standard output except
lines that start with the literal characters `import` and do not contain the
substring `import Foundation`; those are dropped.

We embed lines as `List Char` (the raw characters of the line, including its
terminator when present) and the per-line decision as `processLine`, a direct
transcription of the loop body:

    for line in fileinput.input():
        if line.startswith('import'):
            if "import Foundation" in line:
                sys.stdout.write(line)
        else:
            sys.stdout.write(line)
-/

namespace FilterImports

/-- A line of text: its raw characters, including the trailing terminator
when one is present in the source stream. -/
abbrev Line := List Char

/-- The characters of the literal `'import'` used by `line.startswith('import')`
(src/ci/filter_imports.py line 8). -/
def importKw : Line := "import".toList

/-- The characters of the literal `"import Foundation"` used by the containment
test `"import Foundation" in line` (src/ci/filter_imports.py line 9). -/
def foundationNeedle : Line := "import Foundation".toList

/-- Python's substring containment `needle in haystack`: `true` iff `needle`
occurs contiguously somewhere in `haystack`. -/
def containsSub : Line → Line → Bool
  | needle, [] => needle.isEmpty
  | needle, c :: rest => needle.isPrefixOf (c :: rest) || containsSub needle rest

/-- The body of the filter loop (src/ci/filter_imports.py lines 8-12) for one
line: the list of lines written to standard output for this input line
(either `[line]` or `[]`). -/
def processLine (line : Line) : List Line :=
  if importKw.isPrefixOf line then
    if containsSub foundationNeedle line then [line] else []
  else [line]

/-- The whole filter loop (src/ci/filter_imports.py lines 7-12): the sequence
of lines written to standard output, given the sequence of input lines. -/
def filterImports (lines : List Line) : List Line :=
  lines.flatMap processLine

/-- The per-line keep decision, as a predicate: `processLine` keeps exactly
the lines satisfying it. -/
def keepLine (line : Line) : Bool :=
  !importKw.isPrefixOf line || containsSub foundationNeedle line

/-- Modelled from the spec: the line-splitting behaviour of the input facility
(`fileinput.input()`, library code not in src/), which "does not normalize or
strip terminators": the stream is cut after every newline character, each
line keeping its terminator, and a final unterminated chunk forms a last
line of its own. -/
def splitLines : List Char → List Line
  | [] => []
  | c :: rest =>
    if c = '\n' then [c] :: splitLines rest
    else
      match splitLines rest with
      | [] => [[c]]
      | l :: ls => (c :: l) :: ls

/-- The complete program on a single already-opened input stream: split into
terminator-preserving lines, filter, and concatenate what is written. -/
def runFilter (input : List Char) : List Char :=
  (filterImports (splitLines input)).flatten

/-- Modelled from the spec: the ambient multi-source iteration of
`fileinput.input()` (library code not in src/). Sources are consumed in
order; a source is `Except.ok s` with its full text `s`, or `Except.error e`
for a source whose open/read fails. A failure propagates immediately: the
error terminates the run, the remaining sources are never opened, and the
output already written for earlier sources stays. The result is the pair of
the text written to standard output and the propagated error, if any. -/
def processSources : List (Except String (List Char)) → List Char × Option String
  | [] => ([], none)
  | Except.error e :: _ => ([], some e)
  | Except.ok s :: rest =>
    let res := processSources rest
    (runFilter s ++ res.1, res.2)

theorem isPrefixOf_append_self (a t : List Char) : a.isPrefixOf (a ++ t) = true := by
  induction a with
  | nil => simp [List.isPrefixOf]
  | cons c cs ih => simp [List.isPrefixOf, ih]

theorem processLine_of_import_start (line : Line)
    (h : importKw.isPrefixOf line = true) :
    processLine line = if containsSub foundationNeedle line then [line] else [] := by
  unfold processLine
  rw [h]
  rw [if_pos rfl]

theorem processLine_eq_keep (line : Line) :
    processLine line = if keepLine line then [line] else [] := by
  unfold processLine keepLine
  cases h1 : importKw.isPrefixOf line <;>
    cases h2 : containsSub foundationNeedle line <;> simp [h1, h2]

theorem filterImports_eq_filter (lines : List Line) :
    filterImports lines = lines.filter keepLine := by
  induction lines with
  | nil => rfl
  | cons l ls ih =>
    simp only [filterImports, List.flatMap_cons] at *
    rw [ih, processLine_eq_keep, List.filter_cons]
    cases keepLine l <;> simp

theorem splitLines_flatten (s : List Char) : (splitLines s).flatten = s := by
  induction s with
  | nil => rfl
  | cons c rest ih =>
    unfold splitLines
    by_cases h : c = '\n'
    · simp [h, ih]
    · simp only [h, if_neg, ite_false]
      cases hs : splitLines rest with
      | nil =>
        rw [hs] at ih
        simp at ih
        simp [ih]
      | cons l ls =>
        rw [hs] at ih
        simp at ih ⊢
        simpa using ih

/-- Claim C1: a line that starts with the literal `import` and does not
contain the substring `import Foundation` produces no output at all: nothing
is written for it, and in any surrounding input it leaves no trace (no
blank-line substitute). -/
theorem c1_dropped_line_no_trace (line : Line)
    (h1 : importKw.isPrefixOf line = true)
    (h2 : containsSub foundationNeedle line = false) :
    processLine line = [] ∧
      ∀ pre post : List Line,
        filterImports (pre ++ line :: post) = filterImports pre ++ filterImports post := by
  have hp : processLine line = [] := by simp [processLine, h1, h2]
  refine ⟨hp, fun pre post => ?_⟩
  simp [filterImports, hp]

/-- Witness for C1 at the concrete line `import UIKit\n`. -/
theorem c1_dropped_line_no_trace_witness :
    importKw.isPrefixOf "import UIKit\n".toList = true ∧
      containsSub foundationNeedle "import UIKit\n".toList = false ∧
      processLine "import UIKit\n".toList = [] :=
  ⟨by decide, by decide,
    (c1_dropped_line_no_trace "import UIKit\n".toList (by decide) (by decide)).1⟩

/-- Claim C2: a line that starts with the literal `import` and contains the
substring `import Foundation` anywhere in its content is emitted unchanged;
the test is substring containment, not a structural parse. -/
theorem c2_foundation_line_kept (line : Line)
    (h1 : importKw.isPrefixOf line = true)
    (h2 : containsSub foundationNeedle line = true) :
    processLine line = [line] := by
  simp [processLine, h1, h2]

/-- Witness for C2 at the concrete line `import FooFoundation, import
Foundation` from the spec, where the needle occurs only after the first
module name. -/
theorem c2_foundation_line_kept_witness :
    importKw.isPrefixOf "import FooFoundation, import Foundation".toList = true ∧
      containsSub foundationNeedle "import FooFoundation, import Foundation".toList = true ∧
      processLine "import FooFoundation, import Foundation".toList =
        ["import FooFoundation, import Foundation".toList] :=
  ⟨by decide, by decide,
    c2_foundation_line_kept "import FooFoundation, import Foundation".toList
      (by decide) (by decide)⟩

/-- Claim C3: a line that does not start with the literal `import` (empty
and whitespace-only lines included) is emitted unchanged. -/
theorem c3_non_import_line_kept (line : Line)
    (h : importKw.isPrefixOf line = false) :
    processLine line = [line] := by
  simp [processLine, h]

/-- Witness for C3 at a whitespace-only line and at the empty line. -/
theorem c3_non_import_line_kept_witness :
    importKw.isPrefixOf "   ".toList = false ∧
      processLine "   ".toList = ["   ".toList] ∧
      importKw.isPrefixOf ([] : Line) = false ∧
      processLine ([] : Line) = [([] : Line)] :=
  ⟨by decide, c3_non_import_line_kept "   ".toList (by decide),
    by decide, c3_non_import_line_kept [] (by decide)⟩

/-- Claim C4: a line with a leading whitespace character before `import`
fails the raw prefix test, so it is emitted unchanged regardless of the rest
of its content. -/
theorem c4_indented_import_passed_through (c : Char) (line : Line)
    (h : c.isWhitespace = true) :
    processLine (c :: line) = [c :: line] := by
  have hi : ('i' == c) = false := by
    cases hq : ('i' == c)
    · rfl
    · exfalso
      have hc : 'i' = c := beq_iff_eq.1 hq
      rw [← hc] at h
      exact absurd h (by decide)
  have hpre : importKw.isPrefixOf (c :: line) = false := by
    have h0 : importKw = 'i' :: "mport".toList := rfl
    rw [h0]
    simp [List.isPrefixOf, hi]
  simp [processLine, hpre]

/-- Witness for C4 at the space-indented line `  import UIKit\n` from the
spec. -/
theorem c4_indented_import_passed_through_witness :
    (' ').isWhitespace = true ∧
      processLine (' ' :: " import UIKit\n".toList) = [' ' :: " import UIKit\n".toList] :=
  ⟨by decide, c4_indented_import_passed_through ' ' " import UIKit\n".toList (by decide)⟩

/-- Claim C5: the output is a sublist of the input: kept lines appear in
their original relative order, with no reordering, aggregation or
duplication. -/
theorem c5_output_sublist (lines : List Line) :
    (filterImports lines).Sublist lines := by
  rw [filterImports_eq_filter]
  exact List.filter_sublist lines

/-- Claim C6: every emitted line is a line of the input, character for
character, and the line-splitting facility preserves terminators: flattening
the split lines restores the input stream exactly, so each kept line carries
its original terminator (or the absence of one on a final unterminated
line). -/
theorem c6_emitted_verbatim (input : List Char) (l : Line)
    (h : l ∈ filterImports (splitLines input)) :
    l ∈ splitLines input ∧ (splitLines input).flatten = input := by
  rw [filterImports_eq_filter] at h
  exact ⟨List.mem_of_mem_filter h, splitLines_flatten input⟩

/-- Witness for C6 on the stream `let x = 5\nend` whose last line has no
terminator. -/
theorem c6_emitted_verbatim_witness :
    "end".toList ∈ filterImports (splitLines "let x = 5\nend".toList) ∧
      "end".toList ∈ splitLines "let x = 5\nend".toList ∧
      (splitLines "let x = 5\nend".toList).flatten = "let x = 5\nend".toList :=
  ⟨by decide,
    (c6_emitted_verbatim "let x = 5\nend".toList "end".toList (by decide)).1,
    (c6_emitted_verbatim "let x = 5\nend".toList "end".toList (by decide)).2⟩

/-- Claim C7: the filter is idempotent: applying it to its own output
changes nothing, since every surviving line already satisfies the keep
predicate. -/
theorem c7_filter_idempotent (lines : List Line) :
    filterImports (filterImports lines) = filterImports lines := by
  rw [filterImports_eq_filter, filterImports_eq_filter]
  apply List.filter_eq_self.2
  intro a ha
  exact List.of_mem_filter ha

/-- Claim C8: the emit/drop decision is per-line and stateless: the filter
is a homomorphism for concatenation of line sequences, and on a single line
it is exactly the per-line decision. -/
theorem c8_stateless_homomorphism (l₁ l₂ : List Line) :
    filterImports (l₁ ++ l₂) = filterImports l₁ ++ filterImports l₂ ∧
      ∀ line : Line, filterImports [line] = processLine line := by
  constructor
  · simp [filterImports]
  · intro line
    simp [filterImports]

/-- Claim C9: when a source fails, the error propagates: no later source is
processed (the result does not depend on `post`), the output already
produced for the earlier sources remains, and when every source is readable
the filtering itself raises no error on any text. -/
theorem c9_source_error_propagates (pre : List (List Char)) (e : String)
    (post : List (Except String (List Char))) :
    processSources (pre.map Except.ok ++ Except.error e :: post) =
      ((pre.map runFilter).flatten, some e) ∧
    processSources (pre.map Except.ok) = ((pre.map runFilter).flatten, none) := by
  induction pre with
  | nil => exact ⟨rfl, rfl⟩
  | cons s ss ih =>
    constructor
    · show (runFilter s ++ (processSources (ss.map Except.ok ++ Except.error e :: post)).1,
          (processSources (ss.map Except.ok ++ Except.error e :: post)).2) =
        ((runFilter s :: ss.map runFilter).flatten, some e)
      rw [ih.1, List.flatten_cons]
    · show (runFilter s ++ (processSources (ss.map Except.ok)).1,
          (processSources (ss.map Except.ok)).2) =
        ((runFilter s :: ss.map runFilter).flatten, none)
      rw [ih.2, List.flatten_cons]

/-- Claim C10: the prefix test has no word boundary: a line beginning with
`important` or `imports` is classified as import-like and is dropped unless
it contains the substring `import Foundation`. -/
theorem c10_no_word_boundary (tail : Line) :
    (processLine ("important".toList ++ tail) =
      if containsSub foundationNeedle ("important".toList ++ tail)
        then ["important".toList ++ tail] else []) ∧
    (processLine ("imports".toList ++ tail) =
      if containsSub foundationNeedle ("imports".toList ++ tail)
        then ["imports".toList ++ tail] else []) := by
  have h1 : importKw.isPrefixOf ("important".toList ++ tail) = true := by
    have e1 : "important".toList ++ tail = importKw ++ ("ant".toList ++ tail) := rfl
    rw [e1]
    exact isPrefixOf_append_self importKw ("ant".toList ++ tail)
  have h2 : importKw.isPrefixOf ("imports".toList ++ tail) = true := by
    have e2 : "imports".toList ++ tail = importKw ++ ("s".toList ++ tail) := rfl
    rw [e2]
    exact isPrefixOf_append_self importKw ("s".toList ++ tail)
  exact ⟨processLine_of_import_start _ h1, processLine_of_import_start _ h2⟩

end FilterImports
